import Mathlib

/-!
Verification of the `rpcbroadcast` relay server and of the `signatures`
helpers of libxayagame's `gamechannel` Python package, via a shallow
embedding of the Python code into Lean.

Embedding conventions:
* Python `bytes` are `List (Fin 256)`.
* A broadcast `Channel` is its growing message list (`List String`); the
  sequence number of the channel is the length of that list.
* `Channel.receive (fromSeq, timeout)` holds the lock, waits once on the
  condition variable when `len (messages) <= fromSeq`, and then re-reads
  `self.messages`.  Messages appended by concurrent `send` calls during
  that single wait are passed to the model explicitly as the `appended`
  list; when the wait is not entered, the list read back is unchanged
  (the lock is held throughout), which the model reflects by ignoring
  `appended` in that branch.  The boolean in the result records whether
  the timed wait was entered.
* The `Server` channel dictionary is an association list from channel id
  to message list; `getChannel` creates a fresh empty channel on demand.
-/

namespace XayaGameChannel

/-- One byte, as in a Python `bytes` object. -/
abbrev Byte := Fin 256

/-! ### Channel (rpcbroadcast.py, class Channel) -/

/-- `Channel.send`: `self.messages.append (msg)` (followed by `notifyAll`,
which has no effect on the stored data). -/
def send (messages : List String) (msg : String) : List String :=
  messages ++ [msg]

/-- `Channel.getSeq`: `len (self.messages)`. -/
def getSeq (messages : List String) : Nat :=
  messages.length

/-- Python slice `l[i:]` for an arbitrary (possibly negative) integer `i`:
for `i ≥ 0` the first `i` elements are dropped (clamped at the length);
for `i < 0` the slice starts at `max 0 (len l + i)`, i.e. it keeps the
last `min (-i) (len l)` elements. -/
def pySliceFrom (l : List α) (i : Int) : List α :=
  if i < 0 then
    l.drop (l.length - (-i).toNat)
  else
    l.drop i.toNat

/-- `Channel.receive (fromSeq, timeout)`: under the lock, if
`len (self.messages) <= fromSeq` wait once on the condition variable
(during which `appended` is pushed by concurrent senders), then return
`self.messages[fromSeq:], len (self.messages)`.  The first component
records whether the timed wait was entered. -/
def receive (messages appended : List String) (fromSeq : Int) :
    Bool × List String × Nat :=
  if (messages.length : Int) ≤ fromSeq then
    let l1 := messages ++ appended
    (true, pySliceFrom l1 fromSeq, l1.length)
  else
    (false, pySliceFrom messages fromSeq, messages.length)

example : receive ["a", "b"] [] 1 = (false, ["b"], 2) := by decide
example : receive ["a"] [] 1 = (true, [], 1) := by decide
example : receive [] ["m"] 1 = (true, [], 1) := by decide
example : receive [] ["m"] 0 = (true, ["m"], 1) := by decide
example : receive ["a", "b", "c"] [] (-1) = (false, ["c"], 3) := by decide
example : receive [] [] (-3) = (false, [], 0) := by decide

/-! ### Server (rpcbroadcast.py, class Server)

`self.channels` is a dictionary from channel id to `Channel`; we embed it
as an association list (first match wins, as every state reachable from
an empty dictionary has distinct keys). -/

/-- The server's channel dictionary. -/
abbrev ServerState := List (String × List String)

/-- Dictionary lookup `self.channels[channel]` (`none` when absent). -/
def lookupChannel : ServerState → String → Option (List String)
  | [], _ => none
  | (k, v) :: rest, c => if k = c then some v else lookupChannel rest c

/-- Replace the value stored for an existing key. -/
def updateChannel : ServerState → String → List String → ServerState
  | [], _, _ => []
  | (k, v) :: rest, c, l => if k = c then (k, l) :: rest
                            else (k, v) :: updateChannel rest c l

/-- `Server.getChannel`: return the stored channel, creating a fresh empty
one first when the id is not yet in the dictionary. -/
def getChannel (s : ServerState) (c : String) : ServerState × List String :=
  match lookupChannel s c with
  | some msgs => (s, msgs)
  | none => (s ++ [(c, [])], [])

/-- The message log of channel `c` as observable through the RPC methods:
a channel that is absent from the dictionary behaves exactly like a fresh
empty one (because `getChannel` creates it empty on first touch). -/
def chanLog (s : ServerState) (c : String) : List String :=
  (lookupChannel s c).getD []

/-- The `send` RPC method: `self.getChannel (channel).send (message)`.
The mutation of the retrieved `Channel` object is embedded as an update
of the dictionary entry. -/
def sendOp (s : ServerState) (c : String) (m : String) : ServerState :=
  let (s1, msgs) := getChannel s c
  updateChannel s1 c (send msgs m)

/-- The `getseq` RPC method: `self.getChannel (channel).getSeq ()`,
returning the possibly extended dictionary and the `"seq"` result. -/
def getSeqOp (s : ServerState) (c : String) : ServerState × Nat :=
  let (s1, msgs) := getChannel s c
  (s1, getSeq msgs)

/-- The `receive` RPC method:
`self.getChannel (channel).receive (fromseq, RECEIVE_TIMEOUT)`.  As for
`receive`, messages pushed by concurrent senders while this call waits
are the explicit `appended` argument; the state returned is the one this
call itself is responsible for (channel creation only — `receive` never
mutates a message list). -/
def receiveOp (s : ServerState) (c : String) (fromSeq : Int)
    (appended : List String) : ServerState × (List String × Nat) :=
  let (s1, msgs) := getChannel s c
  (s1, (receive msgs appended fromSeq).2)

/-- The operations the relay server exposes on its state, plus the
internal registry operation `getChannel` itself. -/
inductive Op where
  | sendMsg (c : String) (m : String)
  | getSeqMsg (c : String)
  | receiveMsg (c : String) (fromSeq : Int) (appended : List String)
  | getOrCreate (c : String)

/-- State transition of one relay operation. -/
def applyOp (s : ServerState) : Op → ServerState
  | .sendMsg c m => sendOp s c m
  | .getSeqMsg c => (getSeqOp s c).1
  | .receiveMsg c fromSeq ap => (receiveOp s c fromSeq ap).1
  | .getOrCreate c => (getChannel s c).1

/-! ### Helper lemmas about the server dictionary -/

theorem lookupChannel_append_single (s : ServerState) (c id : String) :
    lookupChannel (s ++ [(c, [])]) id =
      ((lookupChannel s id).orElse
        (fun _ => if c = id then some [] else none)) := by
  induction s with
  | nil => simp [lookupChannel]
  | cons kv rest ih =>
      obtain ⟨k, v⟩ := kv
      by_cases h : k = id <;> simp [lookupChannel, h, ih]

theorem chanLog_getChannel (s : ServerState) (c id : String) :
    chanLog (getChannel s c).1 id = chanLog s id := by
  unfold getChannel
  cases hl : lookupChannel s c with
  | some msgs => rfl
  | none =>
      simp only [chanLog, lookupChannel_append_single]
      cases hid : lookupChannel s id with
      | some v => rfl
      | none =>
          by_cases h : c = id
          · subst h; simp [hl] at hid ⊢
          · simp [h, Option.orElse]

theorem getChannel_snd (s : ServerState) (c : String) :
    (getChannel s c).2 = chanLog s c := by
  unfold getChannel chanLog
  cases hl : lookupChannel s c <;> rfl

theorem getChannel_mem (s : ServerState) (c : String) :
    lookupChannel (getChannel s c).1 c = some (chanLog s c) := by
  unfold getChannel chanLog
  cases hl : lookupChannel s c with
  | some msgs => simp [hl]
  | none => simp [lookupChannel_append_single, hl, Option.orElse]

theorem lookupChannel_updateChannel_self (s : ServerState) (c : String)
    (l : List String) (h : (lookupChannel s c).isSome) :
    lookupChannel (updateChannel s c l) c = some l := by
  induction s with
  | nil => simp [lookupChannel] at h
  | cons kv rest ih =>
      obtain ⟨k, v⟩ := kv
      by_cases hk : k = c
      · simp [lookupChannel, updateChannel, hk]
      · simp only [lookupChannel, updateChannel, hk, if_false] at h ⊢
        exact ih h

theorem lookupChannel_updateChannel_other (s : ServerState) (c id : String)
    (l : List String) (h : id ≠ c) :
    lookupChannel (updateChannel s c l) id = lookupChannel s id := by
  induction s with
  | nil => rfl
  | cons kv rest ih =>
      obtain ⟨k, v⟩ := kv
      simp only [updateChannel]
      by_cases hk : k = c
      · subst hk
        have hne : ¬ k = id := fun hh => h hh.symm
        simp [lookupChannel, hne]
      · simp only [if_neg hk, lookupChannel]
        by_cases hid : k = id
        · simp [hid]
        · simp [hid, ih]

theorem chanLog_sendOp (s : ServerState) (c m id : String) :
    chanLog (sendOp s c m) id =
      if id = c then chanLog s id ++ [m] else chanLog s id := by
  unfold sendOp
  by_cases h : id = c
  · subst h
    simp only [if_pos rfl, chanLog]
    rw [lookupChannel_updateChannel_self _ _ _ (by simp [getChannel_mem])]
    simp [getChannel_snd, send, chanLog]
  · simp only [if_neg h, chanLog]
    rw [lookupChannel_updateChannel_other _ _ _ _ h]
    have := chanLog_getChannel s c id
    simpa [chanLog] using this

/-! ### Byte-string encodings used by signatures.py

`bytes.hex ()` (lowercase hex), `base64.b64encode` (standard alphabet with
padding) and `hashlib.sha256 (...).hexdigest ()`. -/

/-- One lowercase hexadecimal digit, `n < 16`. -/
def hexDigit (n : Nat) : Char :=
  if n < 10 then Char.ofNat (48 + n) else Char.ofNat (87 + n)

/-- `bytes.hex ()`: two lowercase hex digits per byte. -/
def hexEncode : List Byte → String
  | [] => ""
  | b :: rest =>
      String.mk [hexDigit (b.val / 16), hexDigit (b.val % 16)] ++ hexEncode rest

/-- One character of the standard base64 alphabet, `n < 64`. -/
def base64Char (n : Nat) : Char :=
  if n < 26 then Char.ofNat (65 + n)
  else if n < 52 then Char.ofNat (97 + (n - 26))
  else if n < 62 then Char.ofNat (48 + (n - 52))
  else if n = 62 then '+'
  else '/'

/-- `base64.b64encode` with the standard alphabet and `=` padding. -/
def base64Encode : List Byte → String
  | [] => ""
  | [b1] =>
      String.mk [base64Char (b1.val / 4), base64Char (b1.val % 4 * 16)] ++ "=="
  | [b1, b2] =>
      String.mk [base64Char (b1.val / 4),
                 base64Char (b1.val % 4 * 16 + b2.val / 16),
                 base64Char (b2.val % 16 * 4)] ++ "="
  | b1 :: b2 :: b3 :: rest =>
      String.mk [base64Char (b1.val / 4),
                 base64Char (b1.val % 4 * 16 + b2.val / 16),
                 base64Char (b2.val % 16 * 4 + b3.val / 64),
                 base64Char (b3.val % 64)] ++ base64Encode rest

/-! SHA-256 (FIPS 180-4), on 32-bit words embedded as `Nat` reduced
modulo `2 ^ 32`. -/

/-- `2 ^ 32`. -/
def w32mod : Nat := 4294967296

/-- Right rotation of a 32-bit word by `k`. -/
def rotr (k n : Nat) : Nat :=
  (n / 2 ^ k + n % 2 ^ k * 2 ^ (32 - k)) % w32mod

/-- The 64 SHA-256 round constants (decimal). -/
def sha256K : List Nat :=
  [1116352408, 1899447441, 3049323471, 3921009573, 961987163,
   1508970993, 2453635748, 2870763221, 3624381080, 310598401,
   607225278, 1426881987, 1925078388, 2162078206, 2614888103,
   3248222580, 3835390401, 4022224774, 264347078, 604807628,
   770255983, 1249150122, 1555081692, 1996064986, 2554220882,
   2821834349, 2952996808, 3210313671, 3336571891, 3584528711,
   113926993, 338241895, 666307205, 773529912, 1294757372,
   1396182291, 1695183700, 1986661051, 2177026350, 2456956037,
   2730485921, 2820302411, 3259730800, 3345764771, 3516065817,
   3600352804, 4094571909, 275423344, 430227734, 506948616,
   659060556, 883997877, 958139571, 1322822218, 1537002063,
   1747873779, 1955562222, 2024104815, 2227730452, 2361852424,
   2428436474, 2756734187, 3204031479, 3329325298]

/-- The SHA-256 initial hash value (decimal). -/
def sha256H0 : List Nat :=
  [1779033703, 3144134277, 1013904242, 2773480762, 1359893119,
   2600822924, 528734635, 1541459225]

/-- `k` bytes of `n`, big endian. -/
def beBytes : Nat → Nat → List Byte
  | 0, _ => []
  | k + 1, n => beBytes k (n / 256) ++ [⟨n % 256, by omega⟩]

/-- SHA-256 padding: `0x80`, zero bytes up to 56 mod 64, then the bit
length as 8 big-endian bytes. -/
def sha256pad (msg : List Byte) : List Byte :=
  let l := msg.length
  let zeros := (64 + 56 - (l + 1) % 64) % 64
  msg ++ ⟨128, by omega⟩ :: List.replicate zeros ⟨0, by omega⟩
      ++ beBytes 8 (l * 8)

/-- Big-endian 32-bit words of a byte string (length a multiple of 4). -/
def toWords : List Byte → List Nat
  | b1 :: b2 :: b3 :: b4 :: rest =>
      (((b1.val * 256 + b2.val) * 256 + b3.val) * 256 + b4.val) :: toWords rest
  | _ => []

/-- SHA-256 lowercase sigma 0. -/
def smallSigma0 (x : Nat) : Nat := rotr 7 x ^^^ rotr 18 x ^^^ x / 2 ^ 3

/-- SHA-256 lowercase sigma 1. -/
def smallSigma1 (x : Nat) : Nat := rotr 17 x ^^^ rotr 19 x ^^^ x / 2 ^ 10

/-- SHA-256 uppercase Sigma 0. -/
def bigSigma0 (x : Nat) : Nat := rotr 2 x ^^^ rotr 13 x ^^^ rotr 22 x

/-- SHA-256 uppercase Sigma 1. -/
def bigSigma1 (x : Nat) : Nat := rotr 6 x ^^^ rotr 11 x ^^^ rotr 25 x

/-- SHA-256 choice function. -/
def chFun (x y z : Nat) : Nat := x &&& y ^^^ (x ^^^ 4294967295) &&& z

/-- SHA-256 majority function. -/
def majFun (x y z : Nat) : Nat := x &&& y ^^^ x &&& z ^^^ y &&& z

/-- Extend a 16-word message block by `k` schedule words. -/
def extendSchedule (w : List Nat) : Nat → List Nat
  | 0 => w
  | k + 1 =>
      let w1 := extendSchedule w k
      let n := w1.length
      w1 ++ [(w1.getD (n - 16) 0 + smallSigma0 (w1.getD (n - 15) 0)
              + w1.getD (n - 7) 0 + smallSigma1 (w1.getD (n - 2) 0)) % w32mod]

/-- One SHA-256 compression round, acting on the eight working variables. -/
def sha256Round (st : List Nat) (kw : Nat × Nat) : List Nat :=
  match st with
  | [a, b, c, d, e, f, g, h] =>
      let t1 := (h + bigSigma1 e + chFun e f g + kw.1 + kw.2) % w32mod
      let t2 := (bigSigma0 a + majFun a b c) % w32mod
      [(t1 + t2) % w32mod, a, b, c, (d + t1) % w32mod, e, f, g]
  | _ => st

/-- Compress one 16-word block into the running hash value. -/
def compressBlock (h : List Nat) (block : List Nat) : List Nat :=
  let w := extendSchedule block 48
  let st := (sha256K.zip w).foldl sha256Round h
  h.zipWith (fun x y => (x + y) % w32mod) st

/-- Fold the compression function over all 16-word blocks. -/
def processBlocks : List Nat → List Nat → List Nat
  | h, [] => h
  | h, w :: ws =>
      processBlocks (compressBlock h ((w :: ws).take 16)) ((w :: ws).drop 16)
termination_by _ ws => ws.length
decreasing_by simp; omega

/-- `hashlib.sha256 (msg).digest ()`. -/
def sha256 (msg : List Byte) : List Byte :=
  ((processBlocks sha256H0 (toWords (sha256pad msg))).map (beBytes 4)).flatten

/-- `hashlib.sha256 (msg).hexdigest ()`. -/
def sha256hex (msg : List Byte) : String :=
  hexEncode (sha256 msg)

/-! ### signatures.py -/

/-- One entry of `ChannelMetadata.participants` (metadata.proto); only the
`address` field is used by signatures.py. -/
structure Participant where
  address : String
deriving DecidableEq

/-- The fields of the `ChannelMetadata` proto used by signatures.py. -/
structure ChannelMetadata where
  reinit : List Byte
  participants : List Participant
deriving DecidableEq

/-- A `SignedData` proto: payload plus accumulated signatures. -/
structure SignedData where
  data : List Byte
  signatures : List String
deriving DecidableEq

/-- The Xaya RPC connection, seen through the three methods used by
`createForChannel`: `validateaddress` (its `isvalid` field),
`getaddressinfo` (its `ismine` field) and `signmessage`. -/
structure Rpc where
  validateaddress : String → Bool
  getaddressinfo : String → Bool
  signmessage : String → String → String

/-- `getChannelMessage`: the raw message that is signed for the given data
in a channel with the given id and topic.  The `assert len (channelId)
== 32` precondition is embedded as `none` on violation. -/
def getChannelMessage (gameId : String) (channelId : List Byte)
    (meta : ChannelMetadata) (topic : String) (data : List Byte) :
    Option String :=
  if channelId.length = 32 then
    some ("Game-Channel Signature\n"
      ++ "Game ID: " ++ gameId ++ "\n"
      ++ "Channel: " ++ hexEncode channelId ++ "\n"
      ++ "Reinit: " ++ base64Encode meta.reinit ++ "\n"
      ++ "Topic: " ++ topic ++ "\n"
      ++ "Data Hash: " ++ sha256hex data)
  else
    none

/-- The `for p in meta.participants` loop of `createForChannel`: skip a
participant unless `validateaddress (p.address)["isvalid"]` and
`getaddressinfo (p.address)["ismine"]`, otherwise append
`signmessage (p.address, msg)`. -/
def collectSignatures (rpc : Rpc) (msg : String) :
    List Participant → List String
  | [] => []
  | p :: ps =>
      if rpc.validateaddress p.address then
        if rpc.getaddressinfo p.address then
          rpc.signmessage p.address msg :: collectSignatures rpc msg ps
        else
          collectSignatures rpc msg ps
      else
        collectSignatures rpc msg ps

/-- `createForChannel`: a `SignedData` holding `data` and the signatures
of all participants whose key is locally held.  The hex decoding of
`channel["id"]` and the base64/proto decoding of `channel["meta"]["proto"]`
are embedded by passing the decoded `channelId` and `meta` directly. -/
def createForChannel (rpc : Rpc) (gameId : String) (channelId : List Byte)
    (meta : ChannelMetadata) (topic : String) (data : List Byte) :
    Option SignedData :=
  match getChannelMessage gameId channelId meta topic data with
  | none => none
  | some msg =>
      some { data := data
             signatures := collectSignatures rpc msg meta.participants }

/-! ### General helper lemmas -/

theorem isPrefix_self (l : List α) : l <+: l :=
  ⟨[], List.append_nil l⟩

theorem foldl_send (ms acc : List String) :
    ms.foldl send acc = acc ++ ms := by
  induction ms generalizing acc with
  | nil => simp
  | cons m rest ih => simp [List.foldl_cons, send, ih]

theorem drop_suffix_drop (l : List α) (m n : Nat) (h : n ≤ m) :
    l.drop m <:+ l.drop n := by
  have heq : l.drop m = (l.drop n).drop (m - n) := by
    rw [List.drop_drop]
    congr 1
    omega
  rw [heq]
  exact List.drop_suffix _ _

theorem collectSignatures_eq (rpc : Rpc) (msg : String)
    (ps : List Participant) :
    collectSignatures rpc msg ps =
      (ps.filter (fun p => rpc.validateaddress p.address
          && rpc.getaddressinfo p.address)).map
        (fun p => rpc.signmessage p.address msg) := by
  induction ps with
  | nil => rfl
  | cons p rest ih =>
      by_cases h1 : rpc.validateaddress p.address
        <;> by_cases h2 : rpc.getaddressinfo p.address
        <;> simp [collectSignatures, List.filter_cons, h1, h2, ih]

/-! ### Claim theorems -/

/-- C1: for every finite sequence of `send` calls `m1, ..., mn` on a fresh
channel with no other operations interleaved, a subsequent `getSeq` returns
`n`, and a subsequent `receive` from sequence number 0 returns exactly
`[m1, ..., mn]` in send order together with `seq = n`. -/
theorem sends_then_getSeq_and_receive (ms : List String) :
    getSeq (ms.foldl send []) = ms.length ∧
    (receive (ms.foldl send []) [] 0).2 = (ms, ms.length) := by
  rw [foldl_send]
  simp only [List.nil_append]
  refine ⟨rfl, ?_⟩
  unfold receive
  by_cases h : (ms.length : Int) ≤ 0
  · have hnil : ms = [] := by
      cases ms with
      | nil => rfl
      | cons a l => exfalso; simp at h; omega
    subst hnil
    rfl
  · rw [if_neg h]
    simp [pySliceFrom]

/-- C3 (amended): for every channel log and every `k < currentSeq`,
`receive (k)` returns `messages[k:]` together with `seq = currentSeq`
without entering the timed wait; at `k = currentSeq` the call still
returns the same values (absent concurrent sends), but only after
entering the timed wait. -/
theorem receive_below_seq_no_block (msgs ap : List String) (k : Nat)
    (h : k ≤ msgs.length) :
    (k < msgs.length →
      receive msgs ap (k : Int) = (false, msgs.drop k, msgs.length)) ∧
    (k = msgs.length →
      (receive msgs ap (k : Int)).1 = true ∧
      receive msgs [] (k : Int) = (true, [], msgs.length)) := by
  constructor
  · intro hk
    unfold receive
    rw [if_neg (by exact_mod_cast Nat.not_le.mpr hk)]
    simp [pySliceFrom]
  · intro hk
    subst hk
    have hc : ((msgs.length : Int) ≤ (msgs.length : Nat)) := le_refl _
    refine ⟨?_, ?_⟩
    · unfold receive
      rw [if_pos hc]
    · unfold receive
      rw [if_pos hc]
      simp [pySliceFrom]

/-- C3 counterexample: with one stored message and `k = currentSeq = 1`
(so `k ≤ currentSeq`), the call does enter the timed wait, refuting the
claim that no `k ≤ currentSeq` blocks. -/
theorem receive_at_seq_enters_wait_cex :
    ¬ ((receive ["a"] [] 1).1 = false) := by decide

/-- C4 (amended): a `fromSeq` strictly greater than `currentSeq` is not an
error: the call enters the timed wait exactly as `receive (currentSeq)`
would and returns the same new sequence number, and its message list is a
suffix of the one `receive (currentSeq)` returns; when no message is
appended during the wait the two results are identical.  (It is not the
case that messages appended during the wait are returned identically: the
larger `fromSeq` cuts them off.) -/
theorem receive_beyond_seq_waits (msgs ap : List String) (fromSeq : Int)
    (h : (msgs.length : Int) < fromSeq) :
    (receive msgs ap fromSeq).1 = true ∧
    (receive msgs ap (msgs.length : Int)).1 = true ∧
    (receive msgs ap fromSeq).2.2 =
      (receive msgs ap (msgs.length : Int)).2.2 ∧
    (receive msgs ap fromSeq).2.1 <:+
      (receive msgs ap (msgs.length : Int)).2.1 ∧
    (ap = [] →
      receive msgs ap fromSeq = receive msgs ap (msgs.length : Int)) := by
  have h0 : (0 : Int) ≤ fromSeq := le_trans (Int.natCast_nonneg _) (le_of_lt h)
  have hself : ((msgs.length : Int) ≤ (msgs.length : Nat)) := le_refl _
  have hcond : ((msgs.length : Int) ≤ fromSeq) := le_of_lt h
  have hle : msgs.length ≤ fromSeq.toNat := by omega
  unfold receive
  rw [if_pos hcond, if_pos hself]
  refine ⟨rfl, rfl, rfl, ?_, ?_⟩
  · simp only [pySliceFrom, if_neg (not_lt.mpr h0),
      if_neg (not_lt.mpr (Int.natCast_nonneg msgs.length)), Int.toNat_natCast]
    exact drop_suffix_drop _ _ _ hle
  · intro hap
    subst hap
    simp only [pySliceFrom, if_neg (not_lt.mpr h0),
      if_neg (not_lt.mpr (Int.natCast_nonneg msgs.length)), Int.toNat_natCast,
      List.append_nil]
    rw [List.drop_length, List.drop_eq_nil_of_le hle]

/-- C3 witness: `receive (1)` on a two-message log returns the second
message and `seq = 2` without entering the timed wait. -/
theorem receive_below_seq_no_block_witness :
    1 ≤ (["a", "b"] : List String).length ∧
    receive ["a", "b"] ["x"] ((1 : Nat) : Int) =
      (false, (["a", "b"] : List String).drop 1,
        (["a", "b"] : List String).length) :=
  ⟨by decide,
   (receive_below_seq_no_block ["a", "b"] ["x"] 1 (by decide)).1
     (by decide)⟩

/-- C4 witness: `receive (3)` on an empty channel enters the wait and
its result is a suffix of what `receive (currentSeq = 0)` returns. -/
theorem receive_beyond_seq_waits_witness :
    ((([] : List String).length : Int) < 3) ∧
    (receive [] ["m"] 3).1 = true ∧
    (receive [] ["m"] 3).2.1 <:+
      (receive [] ["m"] ((([] : List String).length : Int))).2.1 :=
  ⟨by decide, (receive_beyond_seq_waits [] ["m"] 3 (by decide)).1,
   (receive_beyond_seq_waits [] ["m"] 3 (by decide)).2.2.2.1⟩

/-- C4 counterexample: on an empty channel, with one message appended
during the wait, `receive (1)` does not behave exactly as `receive (0)`
(i.e. as `receive (currentSeq)`): the former misses the appended message
while the latter returns it. -/
theorem receive_beyond_seq_waits_cex :
    receive [] ["m"] 1 ≠ receive [] ["m"] 0 := by decide

/-- C5: a `receive` at exactly `currentSeq` during which no `send` occurs
enters the timed wait and, once the timeout elapses, returns the normal
result of no messages and the unchanged sequence number; at the server
level the call leaves every channel log unchanged. -/
theorem receive_at_seq_timeout (msgs : List String) (s : ServerState)
    (c id : String) :
    receive msgs [] (msgs.length : Int) = (true, [], msgs.length) ∧
    chanLog ((receiveOp s c ((chanLog s c).length : Int) []).1) id =
      chanLog s id ∧
    (receiveOp s c ((chanLog s c).length : Int) []).2 =
      ([], (chanLog s c).length) := by
  have hbase : ∀ l : List String,
      receive l [] (l.length : Int) = (true, [], l.length) := by
    intro l
    unfold receive
    rw [if_pos (le_refl _)]
    simp [pySliceFrom]
  refine ⟨hbase msgs, ?_, ?_⟩
  · simpa [receiveOp] using chanLog_getChannel s c id
  · simp only [receiveOp, getChannel_snd]
    rw [hbase (chanLog s c)]

/-- C10: for a negative `fromSeq`, `receive` never enters the timed wait
(even on an empty log) and returns, by negative-slice semantics, the last
`min (|fromSeq|, n)` messages of the `n` stored ones together with
`seq = n`. -/
theorem receive_negative_fromSeq (msgs ap : List String) (fromSeq : Int)
    (h : fromSeq < 0) :
    receive msgs ap fromSeq =
      (false, msgs.drop (msgs.length - (-fromSeq).toNat), msgs.length) ∧
    (msgs.drop (msgs.length - (-fromSeq).toNat)).length =
      min (-fromSeq).toNat msgs.length ∧
    msgs.drop (msgs.length - (-fromSeq).toNat) <:+ msgs := by
  have hcond : ¬ ((msgs.length : Int) ≤ fromSeq) := by
    have := Int.natCast_nonneg msgs.length
    omega
  refine ⟨?_, ?_, List.drop_suffix _ _⟩
  · unfold receive
    rw [if_neg hcond]
    simp [pySliceFrom, h]
  · rw [List.length_drop]
    omega

/-- C10 witness: `receive (-1)` on the three-message log returns only the
most recent message without waiting. -/
theorem receive_negative_fromSeq_witness :
    (-1 : Int) < 0 ∧
    receive ["a", "b", "c"] [] (-1) = (false, ["c"], 3) :=
  ⟨by decide,
   (receive_negative_fromSeq ["a", "b", "c"] [] (-1) (by decide)).1⟩

/-- C6: every relay operation (send, getseq, receive and the registry's
get-or-create) preserves the append-only invariant: each channel log
before the operation is a prefix of the log after it and its length never
decreases, and only a send on channel `c` extends `c`'s log — by exactly
the sent message at the end — while every other log is left unchanged. -/
theorem relay_append_only (s : ServerState) (op : Op) (id : String) :
    chanLog s id <+: chanLog (applyOp s op) id ∧
    (chanLog s id).length ≤ (chanLog (applyOp s op) id).length ∧
    (match op with
     | Op.sendMsg c m =>
         chanLog (applyOp s op) id =
           if id = c then chanLog s id ++ [m] else chanLog s id
     | _ => chanLog (applyOp s op) id = chanLog s id) := by
  cases op with
  | sendMsg c m =>
      have h := chanLog_sendOp s c m id
      simp only [applyOp]
      refine ⟨?_, ?_, h⟩
      · rw [h]
        by_cases hid : id = c
        · rw [if_pos hid]
          exact ⟨[m], rfl⟩
        · rw [if_neg hid]
      · rw [h]
        by_cases hid : id = c
        · rw [if_pos hid]
          simp
        · rw [if_neg hid]
  | getSeqMsg c =>
      have h : chanLog (applyOp s (Op.getSeqMsg c)) id = chanLog s id := by
        simp only [applyOp, getSeqOp]
        exact chanLog_getChannel s c id
      exact ⟨h ▸ isPrefix_self _, by rw [h], h⟩
  | receiveMsg c fromSeq ap =>
      have h : chanLog (applyOp s (Op.receiveMsg c fromSeq ap)) id
          = chanLog s id := by
        simp only [applyOp, receiveOp]
        exact chanLog_getChannel s c id
      exact ⟨h ▸ isPrefix_self _, by rw [h], h⟩
  | getOrCreate c =>
      have h : chanLog (applyOp s (Op.getOrCreate c)) id = chanLog s id := by
        simp only [applyOp]
        exact chanLog_getChannel s c id
      exact ⟨h ▸ isPrefix_self _, by rw [h], h⟩

/-- C9: channels are isolated — a send on channel `a` leaves the log of
every other channel `b` unchanged, so subsequent `getseq` and `receive`
calls on `b` return the same results as without the send. -/
theorem send_isolation (s : ServerState) (a b m : String) (h : a ≠ b) :
    chanLog (sendOp s a m) b = chanLog s b ∧
    (getSeqOp (sendOp s a m) b).2 = (getSeqOp s b).2 ∧
    ∀ fromSeq ap, (receiveOp (sendOp s a m) b fromSeq ap).2 =
      (receiveOp s b fromSeq ap).2 := by
  have hlog : chanLog (sendOp s a m) b = chanLog s b := by
    rw [chanLog_sendOp, if_neg (Ne.symm h)]
  refine ⟨hlog, ?_, ?_⟩
  · simp only [getSeqOp, getChannel_snd, hlog]
  · intro fromSeq ap
    simp only [receiveOp, getChannel_snd, hlog]

/-- C9 witness: a concrete instance of channel isolation, with the send
on channel `"a"` and the observer on channel `"b"` of the empty server. -/
theorem send_isolation_witness :
    ("a" : String) ≠ "b" ∧
    chanLog (sendOp [] "a" "m") "b" = chanLog [] "b" ∧
    (receiveOp (sendOp [] "a" "m") "b" 0 []).2 =
      (receiveOp [] "b" 0 []).2 :=
  ⟨by decide, (send_isolation [] "a" "b" "m" (by decide)).1,
   (send_isolation [] "a" "b" "m" (by decide)).2.2 0 []⟩

/-- C8: `getChannelMessage` requires the channel id to be exactly 32 raw
bytes: it returns a message precisely for 32-byte ids and fails its
precondition assertion (embedded as `none`) for every other length. -/
theorem getChannelMessage_requires_32_bytes (gameId : String)
    (channelId : List Byte) (meta : ChannelMetadata) (topic : String)
    (data : List Byte) :
    (getChannelMessage gameId channelId meta topic data).isSome ↔
      channelId.length = 32 := by
  unfold getChannelMessage
  by_cases h : channelId.length = 32 <;> simp [h]

/-- C2: `createForChannel` returns a `SignedData` whose `data` field is
the input data and whose signatures are exactly the oracle's signatures
over the built channel message, one for each participant whose address
the oracle reports as valid and locally held, in participant order. -/
theorem createForChannel_collects_in_order (rpc : Rpc) (gameId : String)
    (channelId : List Byte) (meta : ChannelMetadata) (topic : String)
    (data : List Byte) (h : channelId.length = 32) :
    createForChannel rpc gameId channelId meta topic data =
      some { data := data
             signatures :=
               (meta.participants.filter (fun p =>
                   rpc.validateaddress p.address
                     && rpc.getaddressinfo p.address)).map
                 (fun p => rpc.signmessage p.address
                   ((getChannelMessage gameId channelId meta topic
                       data).getD "")) } := by
  unfold createForChannel getChannelMessage
  rw [if_pos h]
  simp only [Option.getD_some]
  rw [collectSignatures_eq]

/-- C2 witness: a concrete oracle holding the keys of `"p1"` and `"p3"`
but not `"p2"`. -/
def rpcW : Rpc :=
  { validateaddress := fun _ => true
    getaddressinfo := fun a => a != "p2"
    signmessage := fun a m => a ++ ":" ++ m }

/-- The three-participant metadata of the C2 witness. -/
def metaW : ChannelMetadata :=
  { reinit := []
    participants := [⟨"p1"⟩, ⟨"p2"⟩, ⟨"p3"⟩] }

/-- C2 witness: `createForChannel` on a 32-byte channel id with
participants `[p1 (mine), p2 (not mine), p3 (mine)]`. -/
theorem createForChannel_collects_in_order_witness :
    (List.replicate 32 (0 : Byte)).length = 32 ∧
    createForChannel rpcW "game" (List.replicate 32 (0 : Byte)) metaW
        "topic" [] =
      some { data := []
             signatures :=
               (metaW.participants.filter (fun p =>
                   rpcW.validateaddress p.address
                     && rpcW.getaddressinfo p.address)).map
                 (fun p => rpcW.signmessage p.address
                   ((getChannelMessage "game"
                       (List.replicate 32 (0 : Byte)) metaW "topic"
                       []).getD "")) } :=
  ⟨by simp,
   createForChannel_collects_in_order rpcW "game"
     (List.replicate 32 (0 : Byte)) metaW "topic" [] (by simp)⟩

end XayaGameChannel
